import Mathlib

/-!
# Verification of the Consistent_Hash router (Go) against its specification

Shallow embedding of the repository's consistent-hash router
(`consistent_hash.go`, the migration planner file, `redis/hash_ring.go`,
`redis/redis.go`, `encryptor.go`) in Lean 4.

Modelling conventions:

* Go `int32` ring scores are modelled as `Int`; the hasher's range bound
  `math.MaxInt32 = 2^31 - 1` is the constant `M`.  All arithmetic the code
  performs on scores stays well inside `int32` on the reachable inputs, so
  plain `Int` arithmetic is faithful there (noted per definition).
* Fallible store operations return `Except String α`; the strings are the
  Go error messages.  On an error the Go store may have been partially
  mutated; the claims proved here never inspect the state after an error,
  so `Except` without a paired state on the error branch is adequate.
* The router consumes the `HashRing` interface (`hash_ring.go`); it is
  embedded as a record of operations `HashRingOps σ` over an abstract
  store state `σ`, exactly the operations the router calls.  `Lock` and
  `Unlock` guard a serial critical section and are modelled as always
  succeeding (the claims under proof are about the serial behaviour
  inside the critical section, per the spec's scheduling model).
* `ModelState`/`modelOps` is the store model used to run the router: the
  ordered-set contract of `hash_ring.go` / spec section 4.2 (ceiling and
  floor wrap, `-1` on an empty ring), with the data-key operations
  (`DataKeys`, `AddNodeToDataKeys`, `DeleteNodeToDataKeys`) transcribed
  from the repository's only store implementation `redis/hash_ring.go`
  over an idealised key-value backend, because their error behaviour on
  an absent entry is claim-relevant.  Go `map[string]struct{}` sets are
  modelled as `List String` with set-like union/difference; JSON
  marshalling of such a set is modelled as the identity on its contents
  (the encoding is bijective on the abstraction used here).
* The broken parts of the concrete Redis `Ceiling` path
  (`redis/redis.go`, `redis/hash_ring.go`) are modelled separately and
  faithfully, misspelled command included, for the claim that targets
  them.
-/

namespace CH

/-- `math.MaxInt32 = 2^31 - 1`, the ring modulus used by the source
(`encryptor.go` reduces the murmur3 hash modulo it; the planner shifts by
it). -/
def M : Int := 2147483647

/-- `incrScore` (planner file, bottom): `(x+1)` wrapping `MaxInt32-1` to `0`. -/
def incrScore (score : Int) : Int :=
  if score = M - 1 then 0 else score + 1

/-- `decrScore` (planner file, bottom): `(x-1)` wrapping `0` to `MaxInt32-1`. -/
def decrScore (score : Int) : Int :=
  if score = 0 then M - 1 else score - 1

/-- Go `fmt` behaviour for the verb `%d` applied to a `string` operand: the
output is `%!d(string=<s>)` (fmt package, "wrong type or unknown verb"
handling).  `getRawNodeKey` and `RemoveNode` in `consistent_hash.go` apply
`%d` to the (string) node id, so this expansion is part of every raw
virtual-node key the code builds. -/
def goSprintfDString (s : String) : String :=
  "%!d(string=" ++ s ++ ")"

/-- `getRawNodeKey` (consistent_hash.go:255): `fmt.Sprintf("%d_%d", nodeID,
index)` with a string `nodeID` and an int `index`. -/
def getRawNodeKey (nodeID : String) (index : Nat) : String :=
  goSprintfDString nodeID ++ "_" ++ toString index

/-- Index (character-based; all strings involved are ASCII, so it matches
Go's byte-based `strings.LastIndex`) of the last `'_'` in a character
list. -/
def lastUnderscoreIdx : List Char → Option Nat
  | [] => none
  | c :: cs =>
    match lastUnderscoreIdx cs with
    | some i => some (i + 1)
    | none => if c = '_' then some 0 else none

/-- `getNodeID` (consistent_hash.go:259): strip the suffix from the last
`'_'` on.  When the string has no `'_'` the Go code slices with index `-1`
and panics; that case is unreachable for keys the code builds and is
modelled as the empty string. -/
def getNodeID (rawNodeKey : String) : String :=
  match lastUnderscoreIdx rawNodeKey.data with
  | some i => String.mk (rawNodeKey.data.take i)
  | none => ""

/-- `getValidWeight` (consistent_hash.go:243): clamp the weight into
`[1, 10]`. -/
def getValidWeight (weight : Int) : Int :=
  if weight ≤ 0 then 1
  else if weight ≥ 10 then 10
  else weight

/-! ## The `HashRing` interface (hash_ring.go)

A record of the operations the router calls, over an abstract store state
`σ`.  `Lock`/`Unlock` are modelled as always succeeding (serial critical
section). -/

structure HashRingOps (σ : Type) where
  add : σ → Int → String → Except String σ
  ceiling : σ → Int → Except String Int
  floor : σ → Int → Except String Int
  rem : σ → Int → String → Except String σ
  nodes : σ → Except String (List (String × Nat))
  addNodeToReplica : σ → String → Nat → Except String σ
  deleteNodeToReplica : σ → String → Except String σ
  node : σ → Int → Except String (List String)
  dataKeys : σ → String → Except String (List String)
  addNodeToDataKeys : σ → String → List String → Except String σ
  deleteNodeToDataKeys : σ → String → List String → Except String σ

/-! ## The store model (`ModelState`, `modelOps`)

Ring set, replica map and ownership map, per the data model of the spec
(section 3) and the comments on `hash_ring.go`.  The data-key operations
follow `redis/hash_ring.go` (see the header comment). -/

structure ModelState where
  /-- The ring set: score and the ordered real-node-key list at that
  score (the JSON payload of the zset member).  Scores are unique by
  construction of the operations. -/
  buckets : List (Int × List String)
  /-- The replica map: real node id to virtual-node count. -/
  replicas : List (String × Nat)
  /-- The ownership map: entries present in the backing store only
  (absence of an entry is observable, see `modelDeleteNodeToDataKeys`). -/
  owns : List (String × List String)
  deriving DecidableEq

/-- Least element of a nonempty list (used for the ceiling lookup). -/
def minList (x : Int) (xs : List Int) : Int := xs.foldl min x

/-- Greatest element of a nonempty list (used for the floor lookup). -/
def maxList (x : Int) (xs : List Int) : Int := xs.foldl max x

/-- The scores present on the ring. -/
def scoresOf (st : ModelState) : List Int := st.buckets.map Prod.fst

/-- `Ceiling` contract (hash_ring.go comment, spec 4.2): smallest score
`≥ input`, else smallest score (wrap), else `-1` on an empty ring. -/
def modelCeiling (st : ModelState) (score : Int) : Except String Int :=
  match scoresOf st |>.filter (fun x => decide (score ≤ x)), scoresOf st with
  | [], [] => .ok (-1)
  | [], y :: ys => .ok (minList y ys)
  | x :: xs, _ => .ok (minList x xs)

/-- `Floor` contract (hash_ring.go comment, spec 4.2): largest score
`≤ input`, else largest score (wrap), else `-1` on an empty ring. -/
def modelFloor (st : ModelState) (score : Int) : Except String Int :=
  match scoresOf st |>.filter (fun x => decide (x ≤ score)), scoresOf st with
  | [], [] => .ok (-1)
  | [], y :: ys => .ok (maxList y ys)
  | x :: xs, _ => .ok (maxList x xs)

/-- `Node` (redis/hash_ring.go:192): the node list at a score; an error if
the bucket is absent (Go: `invalid len of score entities: 0`). -/
def modelNode (st : ModelState) (score : Int) : Except String (List String) :=
  match st.buckets.find? (fun b => decide (b.1 = score)) with
  | none => .error "redis ring node failed, invalid len of score entities: 0"
  | some b => .ok b.2

/-- `Add` (redis/hash_ring.go:55): append the raw key to the bucket at
`score`, creating the bucket when absent; a no-op when the key is already
in the bucket. -/
def modelAdd (st : ModelState) (score : Int) (nodeKey : String) : Except String ModelState :=
  match st.buckets.find? (fun b => decide (b.1 = score)) with
  | none => .ok { st with buckets := st.buckets ++ [(score, [nodeKey])] }
  | some b =>
    if nodeKey ∈ b.2 then .ok st
    else .ok { st with
      buckets := st.buckets.filter (fun c => decide (¬ c.1 = score)) ++ [(score, b.2 ++ [nodeKey])] }

/-- `Rem` (redis/hash_ring.go:95): drop the raw key from the bucket at
`score` (error when the bucket is absent); remove the bucket when it
empties. -/
def modelRem (st : ModelState) (score : Int) (nodeKey : String) : Except String ModelState :=
  match st.buckets.find? (fun b => decide (b.1 = score)) with
  | none => .error "redis ring rem failed, invalid score entity len: 0"
  | some b =>
    if nodeKey ∈ b.2 then
      let rest := b.2.erase nodeKey
      if rest = [] then
        .ok { st with buckets := st.buckets.filter (fun c => decide (¬ c.1 = score)) }
      else
        .ok { st with buckets := st.buckets.filter (fun c => decide (¬ c.1 = score)) ++ [(score, rest)] }
    else .ok st

/-- `Nodes` (redis/hash_ring.go:210): snapshot of the replica map. -/
def modelNodes (st : ModelState) : Except String (List (String × Nat)) :=
  .ok st.replicas

/-- `AddNodeToReplica` (redis/hash_ring.go:224): HSET of the replica
count. -/
def modelAddNodeToReplica (st : ModelState) (nodeID : String) (replicas : Nat) :
    Except String ModelState :=
  .ok { st with replicas := (nodeID, replicas) :: st.replicas.filter (fun p => decide (¬ p.1 = nodeID)) }

/-- `DeleteNodeToReplica` (redis/hash_ring.go:231): HDEL of the replica
entry. -/
def modelDeleteNodeToReplica (st : ModelState) (nodeID : String) : Except String ModelState :=
  .ok { st with replicas := st.replicas.filter (fun p => decide (¬ p.1 = nodeID)) }

/-- `DataKeys` (redis/hash_ring.go:238): the owned key set; `redis.ErrNil`
on an absent entry is filtered, so absence reads as the empty set. -/
def modelDataKeys (st : ModelState) (nodeID : String) : Except String (List String) :=
  match st.owns.find? (fun p => decide (p.1 = nodeID)) with
  | none => .ok []
  | some p => .ok p.2

/-- Set union in Go-map style: old keys, then the genuinely new ones. -/
def goSetUnion (old ks : List String) : List String :=
  old ++ ks.filter (fun k => decide (k ∉ old))

/-- `AddNodeToDataKeys` (redis/hash_ring.go:254): read (absent treated as
empty via the `redis.ErrNil` filter), union, write back. -/
def modelAddNodeToDataKeys (st : ModelState) (nodeID : String) (ks : List String) :
    Except String ModelState :=
  let old := match st.owns.find? (fun p => decide (p.1 = nodeID)) with
    | none => []
    | some p => p.2
  .ok { st with
    owns := (nodeID, goSetUnion old ks) :: st.owns.filter (fun p => decide (¬ p.1 = nodeID)) }

/-- `DeleteNodeToDataKeys` (redis/hash_ring.go:284): the initial `Get`
does NOT filter `redis.ErrNil`, so an absent ownership entry is an error
(message as wrapped by the Go code, whose text says `addNodeToDataKey`);
otherwise remove the keys, deleting the entry when it empties. -/
def modelDeleteNodeToDataKeys (st : ModelState) (nodeID : String) (ks : List String) :
    Except String ModelState :=
  match st.owns.find? (fun p => decide (p.1 = nodeID)) with
  | none => .error "redis ring addNodeToDataKey get failed, err: redigo: nil returned"
  | some p =>
    let rest := p.2.filter (fun k => decide (k ∉ ks))
    if rest = [] then
      .ok { st with owns := st.owns.filter (fun q => decide (¬ q.1 = nodeID)) }
    else
      .ok { st with owns := (nodeID, rest) :: st.owns.filter (fun q => decide (¬ q.1 = nodeID)) }

/-- The store model packaged as the `HashRing` interface. -/
def modelOps : HashRingOps ModelState where
  add := modelAdd
  ceiling := modelCeiling
  floor := modelFloor
  rem := modelRem
  nodes := modelNodes
  addNodeToReplica := modelAddNodeToReplica
  deleteNodeToReplica := modelDeleteNodeToReplica
  node := modelNode
  dataKeys := modelDataKeys
  addNodeToDataKeys := modelAddNodeToDataKeys
  deleteNodeToDataKeys := modelDeleteNodeToDataKeys

/-! ## The migration planner (the planner source file)

`migrateIn`, `migrateOut` and `getvaildNextNode`, transcribed over the
abstract store.  `hasMigrator` models `c.migrator == nil`; `enc` models
`c.encryptor.Encrypt`. -/

/-- The per-key inclusion test of `migrateIn`'s loop (planner file
lines 88-106), taking the ALREADY-SHIFTED `lastScore`/`virtualScore` the
code computed before the loop.  Over `Int`; on the reachable inputs
(scores and hashes in `[0,M)` and at most one of the two patterns set)
every intermediate stays inside `int32`. -/
def migrateInKeep (patternOne patternTwo : Bool) (lastScore virtualScore dvs0 : Int) : Bool :=
  let d1 := if patternOne ∧ dvs0 > lastScore + M then dvs0 - M else dvs0
  let d2 := if patternTwo then d1 - M else d1
  if d2 ≤ lastScore ∨ d2 > virtualScore then false else true

/-- `migrateIn`'s wrap-pattern detection and shifting (planner file
lines 57-69) composed with the per-key test: given the UNSHIFTED
`lastScore`, `virtualScore`, `nextScore` and a key's hash, decide
membership in the move set. -/
def migrateInKeepCtx (lastScore virtualScore nextScore dvs0 : Int) : Bool :=
  let patternOne := lastScore > virtualScore
  let patternTwo := nextScore < virtualScore
  let last1 := if patternOne then lastScore - M else lastScore
  let cur1 := if patternTwo then virtualScore - M else virtualScore
  let last2 := if patternTwo then last1 - M else last1
  migrateInKeep (decide patternOne) (decide patternTwo) last2 cur1 dvs0

/-- `migrateIn` (planner file lines 14-121).  Returns `(from, to, datas)`
plus the updated store.  Faithful transcription notes:
* the error of `DataKeys` at line 84 is NOT checked by the Go code (the
  nil map then iterates as empty), so an error there degrades to `[]`;
* early "no migration needed" exits return zero values with a nil
  error. -/
def migrateIn {σ : Type} (H : HashRingOps σ) (hasMigrator : Bool) (enc : String → Int)
    (st : σ) (virtualScore : Int) (nodeID : String) :
    Except String (String × String × List String × σ) :=
  if ¬ hasMigrator then .ok ("", "", [], st)
  else match H.node st virtualScore with
  | .error e => .error e
  | .ok nodes =>
    if nodes.length > 1 then .ok ("", "", [], st)
    else match H.floor st (decrScore virtualScore) with
    | .error e => .error e
    | .ok lastScore =>
      if lastScore = -1 ∨ lastScore = virtualScore then .ok ("", "", [], st)
      else match H.ceiling st (incrScore virtualScore) with
      | .error e => .error e
      | .ok nextScore =>
        if nextScore = -1 ∨ nextScore = virtualScore then .ok ("", "", [], st)
        else match H.node st nextScore with
        | .error e => .error e
        | .ok [] => .ok ("", "", [], st)
        | .ok (next0 :: _) =>
          let dataKeys := match H.dataKeys st (getNodeID next0) with
            | .ok ks => ks
            | .error _ => []
          let datas := dataKeys.filter
            (fun k => migrateInKeepCtx lastScore virtualScore nextScore (enc k))
          match H.deleteNodeToDataKeys st (getNodeID next0) datas with
          | .error e => .error e
          | .ok st1 =>
            match H.addNodeToDataKeys st1 nodeID datas with
            | .error e => .error e
            | .ok st2 => .ok (getNodeID next0, nodeID, datas, st2)

/-- The per-key inclusion test of `migrateOut`'s loop (planner file
lines 203-212), given the pattern flag and the ALREADY-SHIFTED
`lastScore`. -/
def migrateOutKeep (patten : Bool) (lastScore virtualScore p0 : Int) : Bool :=
  let p := if patten ∧ p0 > lastScore + M then p0 - M else p0
  if p ≤ lastScore ∨ p > virtualScore then false else true

/-- `migrateOut`'s pattern detection (planner file lines 188-192) composed
with the per-key test, from the UNSHIFTED `lastScore`. -/
def migrateOutKeepCtx (lastScore virtualScore p0 : Int) : Bool :=
  let patten := lastScore > virtualScore
  let last1 := if patten then lastScore - M else lastScore
  migrateOutKeep (decide patten) last1 virtualScore p0

/-- The deferred block of `migrateOut` (planner file lines 130-142): when
the body exits without an error and with a chosen nonempty move, rewrite
the ownership accounting. -/
def migrateOutFinish {σ : Type} (H : HashRingOps σ) (st : σ)
    (fromID toID : String) (datas : List String) :
    Except String (String × String × List String × σ) :=
  if toID = "" ∨ datas = [] then .ok (fromID, toID, datas, st)
  else match H.deleteNodeToDataKeys st fromID datas with
  | .error e => .error e
  | .ok st1 =>
    match H.addNodeToDataKeys st1 toID datas with
    | .error e => .error e
    | .ok st2 => .ok (fromID, toID, datas, st2)

/-- `getvaildNextNode` (planner file lines 234-276, the source's
spelling), fuelled: the Go function recurses on the store's ceiling
successor; `fuel` bounds the recursion depth and `none` marks exhaustion
(the termination theorem shows enough fuel always exists).  `ranged` is
the visited-score set (a Go map; list membership models it). -/
def getvaildNextNodeF {σ : Type} (H : HashRingOps σ) (st : σ) :
    Nat → Int → String → List Int → Option (Except String String)
  | 0, _, _, _ => none
  | fuel + 1, score, nodeID, ranged =>
    match H.ceiling st (incrScore score) with
    | .error e => some (.error e)
    | .ok nextScore =>
      if nextScore = -1 then some (.ok "")
      else if nextScore ∈ ranged then some (.ok "")
      else match H.node st nextScore with
      | .error e => some (.error e)
      | .ok [] => some (.error "next node empty")
      | .ok (next0 :: rest) =>
        if getNodeID next0 ≠ nodeID then some (.ok (getNodeID next0))
        else match rest with
        | next1 :: _ => some (.ok (getNodeID next1))
        | [] => getvaildNextNodeF H st fuel nextScore nodeID (score :: ranged)

/-- `migrateOut` (planner file lines 124-231).  Faithful transcription
notes, matching the Go control flow exactly:
* line 145 assigns the `Node` error to `_err` but line 146 tests `err`
  (still nil), so a store error there silently leaves `nodes` empty and
  the function returns success;
* line 222's error branch overwrites the `getvaildNextNode` error with
  `_err` (nil at that point) and returns, so that error too is dropped
  and the result is success with `to = ""`;
* the single-score check (line 180) errors with the source's literal
  message `"no other no"`;
* the deferred accounting block runs on every non-error exit
  (`migrateOutFinish`). -/
def migrateOut {σ : Type} (H : HashRingOps σ) (fuel : Nat) (hasMigrator : Bool)
    (enc : String → Int) (st : σ) (virtualScore : Int) (nodeID : String) :
    Except String (String × String × List String × σ) :=
  if ¬ hasMigrator then .ok ("", "", [], st)
  else
    let fromID := nodeID
    let nodes := match H.node st virtualScore with
      | .ok ns => ns
      | .error _ => []
    match nodes with
    | [] => .ok (fromID, "", [], st)
    | node0 :: _ =>
      if getNodeID node0 ≠ nodeID then .ok (fromID, "", [], st)
      else match H.dataKeys st nodeID with
      | .error e => .error e
      | .ok allDatas =>
        if allDatas = [] then .ok (fromID, "", [], st)
        else match H.floor st (decrScore virtualScore) with
        | .error e => .error e
        | .ok lastScore =>
          let onlyScore := lastScore = -1 ∨ lastScore = virtualScore
          if onlyScore ∧ nodes.length = 1 then .error "no other no"
          else
            let datas := if onlyScore then allDatas
              else allDatas.filter (fun k => migrateOutKeepCtx lastScore virtualScore (enc k))
            if h1 : nodes.length > 1 then
              migrateOutFinish H st fromID (getNodeID (nodes.get ⟨1, h1⟩)) datas
            else match getvaildNextNodeF H st fuel virtualScore nodeID [] with
            | none => .error "model out of fuel"
            | some (.error _) => .ok (fromID, "", datas, st)
            | some (.ok toID) =>
              if toID = "" then .error "no other node"
              else migrateOutFinish H st fromID toID datas

/-! ## The router core (consistent_hash.go)

`AddNode`, `RemoveNode`, `GetNode` over the abstract store.  The migrator
tasks collected by the add/remove loops only run user callbacks after all
store writes (and cannot change the store), so the embedding returns the
final store state; `scale` is `opts.replicas` (the configured replica
scale). -/

/-- The body of `AddNode`'s replica loop (consistent_hash.go lines
72-99), iterated `count` times from replica index `i`. -/
def addNodeLoop {σ : Type} (H : HashRingOps σ) (hasMigrator : Bool) (enc : String → Int)
    (nodeID : String) : Nat → Nat → σ → Except String σ
  | 0, _, st => .ok st
  | count + 1, i, st =>
    let nodeKey := getRawNodeKey nodeID i
    let virtualScore := enc nodeKey
    match H.add st virtualScore nodeKey with
    | .error e => .error e
    | .ok st1 =>
      match migrateIn H hasMigrator enc st1 virtualScore nodeID with
      | .error e => .error e
      | .ok (_, _, _, st2) => addNodeLoop H hasMigrator enc nodeID count (i + 1) st2

/-- `AddNode` (consistent_hash.go lines 40-104). -/
def addNode {σ : Type} (H : HashRingOps σ) (hasMigrator : Bool) (enc : String → Int)
    (scale : Nat) (st : σ) (nodeID : String) (weight : Int) : Except String σ :=
  match H.nodes st with
  | .error e => .error e
  | .ok nodes =>
    if nodes.any (fun p => decide (p.1 = nodeID)) then .error "repeat node"
    else
      let replicas := (getValidWeight weight).toNat * scale
      match H.addNodeToReplica st nodeID replicas with
      | .error e => .error e
      | .ok st1 => addNodeLoop H hasMigrator enc nodeID replicas 0 st1

/-- The body of `RemoveNode`'s replica loop (consistent_hash.go lines
148-172): the virtual score is recomputed with the same
`fmt.Sprintf("%d_%d", nodeID, i)` as line 150, `migrateOut` runs before
`Rem`. -/
def removeNodeLoop {σ : Type} (H : HashRingOps σ) (fuel : Nat) (hasMigrator : Bool)
    (enc : String → Int) (nodeID : String) : Nat → Nat → σ → Except String σ
  | 0, _, st => .ok st
  | count + 1, i, st =>
    let virtualScore := enc (goSprintfDString nodeID ++ "_" ++ toString i)
    match migrateOut H fuel hasMigrator enc st virtualScore nodeID with
    | .error e => .error e
    | .ok (_, _, _, st1) =>
      match H.rem st1 virtualScore (getRawNodeKey nodeID i) with
      | .error e => .error e
      | .ok st2 => removeNodeLoop H fuel hasMigrator enc nodeID count (i + 1) st2

/-- `RemoveNode` (consistent_hash.go lines 108-176). -/
def removeNode {σ : Type} (H : HashRingOps σ) (fuel : Nat) (hasMigrator : Bool)
    (enc : String → Int) (st : σ) (nodeID : String) : Except String σ :=
  match H.nodes st with
  | .error e => .error e
  | .ok nodes =>
    match nodes.find? (fun p => decide (p.1 = nodeID)) with
    | none => .error "invalid node id"
    | some p =>
      match H.deleteNodeToReplica st nodeID with
      | .error e => .error e
      | .ok st1 => removeNodeLoop H fuel hasMigrator enc nodeID p.2 0 st1

/-- `RemoveNode` over the store model, with walk fuel ample for the
current ring (the termination theorem shows `buckets.length + 3`
suffices for the clockwise walk). -/
def modelRemoveNode (hasMigrator : Bool) (enc : String → Int) (st : ModelState)
    (nodeID : String) : Except String ModelState :=
  removeNode modelOps (st.buckets.length + 3) hasMigrator enc st nodeID

/-- `GetNode` (consistent_hash.go lines 199-241).  Note the return value
at line 240 is `nodes[0]` — the RAW bucket entry — while the ownership
write at line 233 uses `getNodeID(nodes[0])`. -/
def getNode {σ : Type} (H : HashRingOps σ) (enc : String → Int) (st : σ)
    (dataKey : String) : Except String (String × σ) :=
  let dataScore := enc dataKey
  match H.ceiling st dataScore with
  | .error e => .error e
  | .ok ceilingScore =>
    if ceilingScore = -1 then .error "no node available"
    else match H.node st ceilingScore with
    | .error e => .error e
    | .ok [] => .error "no node available with empty score"
    | .ok (node0 :: _) =>
      match H.addNodeToDataKeys st (getNodeID node0) [dataKey] with
      | .error e => .error e
      | .ok st1 => .ok (node0, st1)

/-! ## `batchExecuteMigrator` (consistent_hash.go lines 178-195)

The batch fans each task out on a goroutine whose deferred block runs
`recover()` and, on a non-nil recovery, calls `log.Fatal(err)` — which
prints and then calls `os.Exit(1)`, terminating the whole process (and
skipping the `wg.Done()` that follows it).  The embedding abstracts a
task to its outcome (returns normally / panics) and runs the batch as a
sequential linearisation of the goroutines; since `log.Fatal` ends the
process, a panicking task prevents the batch from completing under every
schedule. -/

inductive MigratorOutcome where
  | normal
  | panics
  deriving DecidableEq

inductive BatchRun where
  /-- All tasks ran; `wg.Wait` returned. -/
  | completed (ran : Nat)
  /-- `log.Fatal` fired inside a recover handler: `os.Exit(1)` ended the
  process after `ranBefore` earlier tasks had completed. -/
  | processExited (ranBefore : Nat)
  deriving DecidableEq

/-- The deferred recover handler of one migrator goroutine
(consistent_hash.go lines 185-190): `true` means the handler calls
`log.Fatal` (process exit). -/
def recoverHandlerFatal : MigratorOutcome → Bool
  | .normal => false
  | .panics => true

/-- The batch under a sequential schedule of its goroutines. -/
def batchExecuteMigrator : List MigratorOutcome → BatchRun
  | [] => .completed 0
  | t :: ts =>
    if recoverHandlerFatal t then .processExited 0
    else match batchExecuteMigrator ts with
      | .completed n => .completed (n + 1)
      | .processExited n => .processExited (n + 1)

/-! ## Failing-store instances

The `HashRing` interface admits any store, and any store call may return
a transport error (spec 4.2).  These instances make a chosen operation
fail in order to observe how the planner handles the error.  Operations
irrelevant to the exercised path return innocuous values. -/

/-- A store whose `Node` fails (the `migrateOut` line-145 path). -/
def nodeFailStore : HashRingOps Unit where
  add := fun _ _ _ => .ok ()
  ceiling := fun _ _ => .ok 0
  floor := fun _ _ => .ok 0
  rem := fun _ _ _ => .ok ()
  nodes := fun _ => .ok []
  addNodeToReplica := fun _ _ _ => .ok ()
  deleteNodeToReplica := fun _ _ => .ok ()
  node := fun _ _ => .error "redis ring node zrange by score failed, err: transport failure"
  dataKeys := fun _ _ => .ok ["k"]
  addNodeToDataKeys := fun _ _ _ => .ok ()
  deleteNodeToDataKeys := fun _ _ _ => .ok ()

/-- A store whose `DataKeys` fails (the `migrateIn` line-84 path): the
bucket at score 0 holds the new node's single key, the successor bucket
at 9 holds another node's key, floor and ceiling answer 7 and 9. -/
def dataKeysFailStore : HashRingOps Unit where
  add := fun _ _ _ => .ok ()
  ceiling := fun _ _ => .ok 9
  floor := fun _ _ => .ok 7
  rem := fun _ _ _ => .ok ()
  nodes := fun _ => .ok []
  addNodeToReplica := fun _ _ _ => .ok ()
  deleteNodeToReplica := fun _ _ => .ok ()
  node := fun _ s => if s = 0 then .ok ["X_0"] else .ok ["Y_0"]
  dataKeys := fun _ _ => .error "redis ring dataKeys get failed, err: transport failure"
  addNodeToDataKeys := fun _ _ _ => .ok ()
  deleteNodeToDataKeys := fun _ _ _ => .ok ()

/-- A store whose `Ceiling` fails (the `getvaildNextNode` call inside
`migrateOut`, line-222 path): the victim `A` heads the single-entry
bucket at the queried score and owns `k`. -/
def ceilingFailStore : HashRingOps Unit where
  add := fun _ _ _ => .ok ()
  ceiling := fun _ _ => .error "redis ring ceiling failed, err: transport failure"
  floor := fun _ _ => .ok 5
  rem := fun _ _ _ => .ok ()
  nodes := fun _ => .ok []
  addNodeToReplica := fun _ _ _ => .ok ()
  deleteNodeToReplica := fun _ _ => .ok ()
  node := fun _ _ => .ok ["A_0"]
  dataKeys := fun _ _ => .ok ["k"]
  addNodeToDataKeys := fun _ _ _ => .ok ()
  deleteNodeToDataKeys := fun _ _ _ => .ok ()

/-! ## The concrete Redis `Ceiling` path (redis/redis.go, redis/hash_ring.go)

`Client.Ceiling` (redis.go:133) sends the command name `"ZANGE"` — a
misspelling of `ZRANGE`.  A Redis server answers an unrecognised command
name with an error reply, which `redis.Values` propagates, so every call
returns a transport error (and never the `ErrScoreNotExist` marker).
The zset behind the ring is modelled as a list of (score, member) pairs;
errors carry the Go message and whether they wrap `ErrScoreNotExist`
(for the `errors.Is` tests in `RedisHashRing`). -/

structure GoErr where
  msg : String
  scoreNotExist : Bool
  deriving DecidableEq

structure ScoreEntity where
  score : Int
  val : String
  deriving DecidableEq

/-- `Client.Ceiling` (redis.go:133-153): the `conn.Do("ZANGE", ...)`
reply is an unknown-command error, returned as-is. -/
def clientCeiling (_zset : List (Int × String)) (_score : Int) : Except GoErr ScoreEntity :=
  .error ⟨"ERR unknown command ZANGE", false⟩

/-- The zset member with the least (`first = true`) or greatest score. -/
def pickByScore (first : Bool) : List (Int × String) → Option (Int × String)
  | [] => none
  | e :: es =>
    some (es.foldl (fun b c => if (if first then c.1 < b.1 else b.1 < c.1) then c else b) e)

/-- `Client.FirstOrLast` (redis.go:180-206): `ZRANGE ... LIMIT 0 1`; on an
empty zset the reply has length 0 ≠ 2 and the error wraps
`ErrScoreNotExist`. -/
def clientFirstOrLast (zset : List (Int × String)) (first : Bool) : Except GoErr ScoreEntity :=
  match pickByScore first zset with
  | none => .error ⟨"invalid len of entity: 0, err: score not exist", true⟩
  | some (s, v) => .ok ⟨s, v⟩

/-- `RedisHashRing.Ceiling` (redis/hash_ring.go:144-166).  The first
error test filters `ErrScoreNotExist`; the `FirstOrLast` error test does
NOT (unlike `Floor`'s, line 181), so even a score-not-exist answer from
the fallback is propagated.  The final `return -1, nil` of the source is
unreachable here because the client never returns a nil entity with a
nil error. -/
def redisRingCeiling (zset : List (Int × String)) (score : Int) : Except GoErr Int :=
  match clientCeiling zset score with
  | .ok ent => .ok ent.score
  | .error e =>
    if ¬ e.scoreNotExist then
      .error ⟨"redis ring ceiling failed, err: " ++ e.msg, e.scoreNotExist⟩
    else match clientFirstOrLast zset true with
      | .error e2 => .error ⟨"redis ring first failed, err: " ++ e2.msg, e2.scoreNotExist⟩
      | .ok ent2 => .ok ent2.score

/-- The Redis-backed store as seen by the router, with errors flattened
to their messages.  Only `ceiling` is reachable on the `GetNode` path
proved about it (the call fails before any other store operation); the
remaining operations are outside that path and are left unmodelled. -/
def redisOps : HashRingOps (List (Int × String)) where
  add := fun _ _ _ => .error "not modelled"
  ceiling := fun zset s =>
    match redisRingCeiling zset s with
    | .ok v => .ok v
    | .error e => .error e.msg
  floor := fun _ _ => .error "not modelled"
  rem := fun _ _ _ => .error "not modelled"
  nodes := fun _ => .error "not modelled"
  addNodeToReplica := fun _ _ _ => .error "not modelled"
  deleteNodeToReplica := fun _ _ => .error "not modelled"
  node := fun _ _ => .error "not modelled"
  dataKeys := fun _ _ => .error "not modelled"
  addNodeToDataKeys := fun _ _ _ => .error "not modelled"
  deleteNodeToDataKeys := fun _ _ _ => .error "not modelled"

/-! # Theorems -/

/-! ### The store model packaged as the interface, field by field -/

theorem modelOps_add : modelOps.add = modelAdd := rfl

theorem modelOps_ceiling : modelOps.ceiling = modelCeiling := rfl

theorem modelOps_floor : modelOps.floor = modelFloor := rfl

theorem modelOps_nodes : modelOps.nodes = modelNodes := rfl

theorem modelOps_node : modelOps.node = modelNode := rfl

theorem modelOps_dataKeys : modelOps.dataKeys = modelDataKeys := rfl

theorem modelOps_addNodeToReplica : modelOps.addNodeToReplica = modelAddNodeToReplica := rfl

theorem modelOps_addNodeToDataKeys : modelOps.addNodeToDataKeys = modelAddNodeToDataKeys := rfl

theorem modelOps_deleteNodeToDataKeys :
    modelOps.deleteNodeToDataKeys = modelDeleteNodeToDataKeys := rfl

/-- C1: the claim says `GetNode` returns `parseRealID(list[0])` (suffix
stripped) and that after `AddNode("A", 2)` every `GetNode` returns the
string `"A"`.  The code does neither: line 240 returns `nodes[0]` itself
— the raw bucket entry — while only the ownership write strips the
suffix; and the raw keys `AddNode` builds carry the `%!d(string=A)`
expansion of the `%d` verb.  Evaluations: on a ring whose bucket head is
`"A_0"`, `GetNode` returns `"A_0"` (the stripped id `"A"` is used for
the ownership write only); on the ring built by `AddNode("A", 2)`
(replica scale 1, constant hasher), `GetNode` returns
`"%!d(string=A)_0"`, not `"A"`. -/
theorem getNode_returns_raw_bucket_entry :
    (getNode modelOps (fun _ => 3) ⟨[(5, ["A_0"])], [("A", 1)], []⟩ "k1"
        = .ok ("A_0", ⟨[(5, ["A_0"])], [("A", 1)], [("A", ["k1"])]⟩)
      ∧ getNodeID "A_0" = "A"
      ∧ "A_0" ≠ "A")
    ∧ (addNode modelOps false (fun _ => 3) 1 ⟨[], [], []⟩ "A" 2
        = .ok ⟨[(3, ["%!d(string=A)_0", "%!d(string=A)_1"])], [("A", 2)], []⟩
      ∧ getNode modelOps (fun _ => 3)
          ⟨[(3, ["%!d(string=A)_0", "%!d(string=A)_1"])], [("A", 2)], []⟩ "k"
        = .ok ("%!d(string=A)_0",
            ⟨[(3, ["%!d(string=A)_0", "%!d(string=A)_1"])], [("A", 2)],
             [("%!d(string=A)", ["k"])]⟩)
      ∧ "%!d(string=A)_0" ≠ "A") := by
  exact ⟨⟨rfl, rfl, by decide⟩, rfl, rfl, by decide⟩

/-- C2: the claim says removing the only node while it owns a key fails
with *no other node* (with the replica entry already deleted) and a later
`GetNode` reports *no node available*.  On the code, `RemoveNode`
SUCCEEDS: `migrateOut`'s head test compares
`getNodeID("%!d(string=A)_0") = "%!d(string=A)"` against `"A"`, which
never match because of the `%d` verb, so the migration path (and its
*no other node* detection) is skipped and the bucket is removed.  The
evaluation runs `AddNode("A",1)` (scale 1, migrator registered),
`GetNode("k")`, then `RemoveNode("A")`: removal returns success, the
replica map is empty, and the subsequent `GetNode` does report *no node
available* — but because removal fully succeeded, not because of the
partial-removal corner the claim describes. -/
theorem removeNode_of_last_node_succeeds :
    (addNode modelOps true (fun s => if s = "%!d(string=A)_0" then (5 : Int) else 9) 1
        ⟨[], [], []⟩ "A" 1
      = .ok ⟨[(5, ["%!d(string=A)_0"])], [("A", 1)], []⟩)
    ∧ (getNode modelOps (fun s => if s = "%!d(string=A)_0" then (5 : Int) else 9)
        ⟨[(5, ["%!d(string=A)_0"])], [("A", 1)], []⟩ "k"
      = .ok ("%!d(string=A)_0",
          ⟨[(5, ["%!d(string=A)_0"])], [("A", 1)], [("%!d(string=A)", ["k"])]⟩))
    ∧ (modelRemoveNode true (fun s => if s = "%!d(string=A)_0" then (5 : Int) else 9)
        ⟨[(5, ["%!d(string=A)_0"])], [("A", 1)], [("%!d(string=A)", ["k"])]⟩ "A"
      = .ok ⟨[], [], [("%!d(string=A)", ["k"])]⟩)
    ∧ (getNode modelOps (fun s => if s = "%!d(string=A)_0" then (5 : Int) else 9)
        ⟨[], [], [("%!d(string=A)", ["k"])]⟩ "k"
      = .error "no node available") := by
  exact ⟨rfl, rfl, rfl, rfl⟩

/-- C3: the claim says the store's ceiling returns `-1` without error on
an empty ring and `GetNode` then fails with *no node available*.  On the
code, `RedisHashRing.Ceiling` returns an error on EVERY input (empty
ring included): the client sends the misspelled command `ZANGE`, whose
error reply is not `ErrScoreNotExist` and is propagated (and even with
the command spelled `ZRANGE`, the `FirstOrLast` fallback's
score-not-exist error would be propagated unfiltered, unlike in
`Floor`); the `return -1, nil` is dead code, and `GetNode` on an empty
ring reports the wrapped transport error instead of *no node
available*. -/
theorem redis_ceiling_always_errors :
    (∀ (zset : List (Int × String)) (score : Int),
      ∃ e, redisRingCeiling zset score = .error e)
    ∧ redisRingCeiling [] 0
        = .error ⟨"redis ring ceiling failed, err: ERR unknown command ZANGE", false⟩
    ∧ getNode redisOps (fun _ => 0) [] "x"
        = .error "redis ring ceiling failed, err: ERR unknown command ZANGE" := by
  exact ⟨fun zset score => ⟨⟨"redis ring ceiling failed, err: ERR unknown command ZANGE", false⟩, rfl⟩,
    rfl, rfl⟩

/-- C4: the claim says every store error inside `migrateIn`/`migrateOut`
reaches the caller.  Three do not: (i) `migrateOut` line 145 stores the
`Node` error in `_err` but line 146 tests the still-nil `err`, so the
call returns success with empty results; (ii) `migrateIn` line 84 never
checks the `DataKeys` error, so the planner continues with an empty
candidate set and returns success; (iii) `migrateOut` line 223
overwrites the `getvaildNextNode` error with the nil `_err`, so the call
returns success with `to = ""` and a nonempty move set.  Each conjunct
evaluates the planner against a store failing in exactly that
operation. -/
theorem planner_discards_store_errors :
    migrateOut nodeFailStore 5 true (fun _ => 0) () 0 "A" = .ok ("A", "", [], ())
    ∧ migrateIn dataKeysFailStore true (fun _ => 0) () 0 "A" = .ok ("Y", "A", [], ())
    ∧ migrateOut ceilingFailStore 5 true (fun _ => 2) () 3 "A" = .ok ("A", "", ["k"], ()) := by
  exact ⟨rfl, rfl, rfl⟩

/-- C5: the claim says a panicking migrator is recovered, logged, the
process survives, and the rest of the batch still runs.  The recover
handler (consistent_hash.go line 187) calls `log.Fatal(err)`, which
exits the process: with a batch of two tasks whose first panics, the
model ends in `processExited 0` — the process is terminated and the
second task never completes (nor could `wg.Wait` return, since
`wg.Done` sits after the `log.Fatal`).  A panic-free batch completes
normally. -/
theorem batch_panic_exits_process :
    recoverHandlerFatal .panics = true
    ∧ batchExecuteMigrator [.panics, .normal] = .processExited 0
    ∧ batchExecuteMigrator [.normal, .normal] = .completed 2 := by
  exact ⟨rfl, rfl, rfl⟩

/-- C6: the claim says the raw virtual-node key is `n ++ "_" ++ i` and
`getNodeID` undoes it.  The code builds the key with
`fmt.Sprintf("%d_%d", nodeID, index)` — the `%d` verb on a string
produces `%!d(string=A)_0`, not `A_0` — so `getNodeID` of the key the
code actually derives returns `%!d(string=A)`, not `A`.  The round trip
does hold for the documented derivation `"A_0"`. -/
theorem getRawNodeKey_percent_d_breaks_round_trip :
    getRawNodeKey "A" 0 = "%!d(string=A)_0"
    ∧ getRawNodeKey "A" 0 ≠ "A" ++ "_" ++ toString 0
    ∧ getNodeID (getRawNodeKey "A" 0) = "%!d(string=A)"
    ∧ getNodeID (getRawNodeKey "A" 0) ≠ "A"
    ∧ getNodeID ("A" ++ "_" ++ toString 0) = "A" := by
  exact ⟨rfl, by decide, rfl, by decide, rfl⟩

/-- C7: `migrateIn`'s per-key test, as used with the unshifted
predecessor `lastScore`, new score `virtualScore` and successor
`nextScore`: under patternA (`lastScore > virtualScore`, no patternB) a
key with hash `p` is kept iff `p ∈ (lastScore, M) ∪ [0, virtualScore]`;
with neither pattern set it is kept iff
`lastScore < p ≤ virtualScore`. -/
theorem migrateIn_arc_membership (lastScore virtualScore nextScore p : Int)
    (hl0 : 0 ≤ lastScore) (hl1 : lastScore < M)
    (hc0 : 0 ≤ virtualScore) (hc1 : virtualScore < M)
    (hp0 : 0 ≤ p) (hp1 : p < M) :
    ((lastScore > virtualScore ∧ ¬ nextScore < virtualScore) →
      (migrateInKeepCtx lastScore virtualScore nextScore p = true ↔
        ((lastScore < p ∧ p < M) ∨ (0 ≤ p ∧ p ≤ virtualScore))))
    ∧ ((¬ lastScore > virtualScore ∧ ¬ nextScore < virtualScore) →
      (migrateInKeepCtx lastScore virtualScore nextScore p = true ↔
        (lastScore < p ∧ p ≤ virtualScore))) := by
  unfold migrateInKeepCtx migrateInKeep M at *
  constructor <;> rintro ⟨h1, h2⟩ <;>
    simp only [h1, h2, if_true, if_false, decide_eq_true_eq] <;>
    split_ifs <;>
    simp_all <;>
    omega

/-- Witness for `migrateIn_arc_membership` at
`lastScore = 5, virtualScore = 3, nextScore = 7, p = 1` (a patternA
configuration; the key is kept, matching `p ≤ virtualScore`). -/
theorem migrateIn_arc_membership_w :
    ((0 : Int) ≤ 5 ∧ (5 : Int) < M ∧ (0 : Int) ≤ 3 ∧ (3 : Int) < M
      ∧ (0 : Int) ≤ 1 ∧ (1 : Int) < M)
    ∧ (((5 : Int) > 3 ∧ ¬ (7 : Int) < 3) →
      (migrateInKeepCtx 5 3 7 1 = true ↔
        (((5 : Int) < 1 ∧ (1 : Int) < M) ∨ ((0 : Int) ≤ 1 ∧ (1 : Int) ≤ 3)))) :=
  ⟨⟨by decide, by decide, by decide, by decide, by decide, by decide⟩,
   (migrateIn_arc_membership 5 3 7 1 (by decide) (by decide) (by decide)
      (by decide) (by decide) (by decide)).1⟩

/-- C10: `DeleteNodeToDataKeys` errors whenever the store has no
ownership entry for the node — even for an empty key set — because its
initial `Get` does not filter `redis.ErrNil`; `DataKeys` and
`AddNodeToDataKeys` filter that error and treat absence as the empty
set; and since `migrateIn` calls `DeleteNodeToDataKeys` on the successor
head unconditionally (planner file line 110, before any emptiness
check), `AddNode` of a fresh node fails when the successor head owns no
data keys — evaluated on a ring holding only node `B` (which owns
nothing): `AddNode("C", 1)` returns the `redigo: nil returned` error. -/
theorem deleteNodeToDataKeys_absent_entry_asymmetry
    (st : ModelState) (nodeID : String)
    (habs : st.owns.find? (fun p => decide (p.1 = nodeID)) = none) :
    (∀ keys, modelDeleteNodeToDataKeys st nodeID keys
      = .error "redis ring addNodeToDataKey get failed, err: redigo: nil returned")
    ∧ modelDataKeys st nodeID = .ok []
    ∧ (∀ ks, modelAddNodeToDataKeys st nodeID ks
        = .ok { st with owns := (nodeID, goSetUnion [] ks)
            :: st.owns.filter (fun p => decide (¬ p.1 = nodeID)) })
    ∧ (∀ (enc : String → Int) (curScore lastScore nextScore : Int) (k nh : String)
        (nt : List String),
        modelNode st curScore = .ok [k] →
        modelFloor st (decrScore curScore) = .ok lastScore →
        ¬ (lastScore = -1 ∨ lastScore = curScore) →
        modelCeiling st (incrScore curScore) = .ok nextScore →
        ¬ (nextScore = -1 ∨ nextScore = curScore) →
        modelNode st nextScore = .ok (nh :: nt) →
        st.owns.find? (fun p => decide (p.1 = getNodeID nh)) = none →
        migrateIn modelOps true enc st curScore nodeID
          = .error "redis ring addNodeToDataKey get failed, err: redigo: nil returned")
    ∧ addNode modelOps true (fun s => if s = "%!d(string=C)_0" then (50 : Int) else 10) 1
        ⟨[(100, ["%!d(string=B)_0"])], [("B", 1)], []⟩ "C" 1
      = .error "redis ring addNodeToDataKey get failed, err: redigo: nil returned" := by
  refine ⟨?_, ?_, ?_, ?_, rfl⟩
  · intro keys
    unfold modelDeleteNodeToDataKeys
    rw [habs]
  · unfold modelDataKeys
    rw [habs]
  · intro ks
    unfold modelAddNodeToDataKeys
    rw [habs]
  · intro enc curScore lastScore nextScore k nh nt hn hf hl hc hnc hnn habs2
    simp [migrateIn, modelOps_node, modelOps_floor, modelOps_ceiling, modelOps_dataKeys,
      modelOps_deleteNodeToDataKeys, hn, hf, hl, hc, hnc, hnn, modelDataKeys,
      modelDeleteNodeToDataKeys, habs2]

/-- Witness for `deleteNodeToDataKeys_absent_entry_asymmetry` on the
empty store state and the empty key set. -/
theorem deleteNodeToDataKeys_absent_entry_asymmetry_w :
    modelDeleteNodeToDataKeys ⟨[], [], []⟩ "N" []
      = .error "redis ring addNodeToDataKey get failed, err: redigo: nil returned"
    ∧ modelDataKeys ⟨[], [], []⟩ "N" = .ok [] := by
  have h := deleteNodeToDataKeys_absent_entry_asymmetry ⟨[], [], []⟩ "N" rfl
  exact ⟨h.1 [], h.2.1⟩

/-! ### Helper lemmas: the store model and the replica map -/

/-- `Add` touches only the ring set. -/
theorem modelAdd_replicas {st st2 : ModelState} {score : Int} {key : String}
    (h : modelAdd st score key = .ok st2) : st2.replicas = st.replicas := by
  unfold modelAdd at h
  split at h
  · simp only [Except.ok.injEq] at h; subst h; rfl
  · split at h <;> simp only [Except.ok.injEq] at h <;> subst h <;> rfl

/-- `DeleteNodeToDataKeys` touches only the ownership map. -/
theorem modelDeleteNodeToDataKeys_replicas {st st2 : ModelState} {n : String}
    {ks : List String} (h : modelDeleteNodeToDataKeys st n ks = .ok st2) :
    st2.replicas = st.replicas := by
  simp only [modelDeleteNodeToDataKeys] at h
  split at h
  · cases h
  · split at h <;> (cases h; rfl)

/-- `AddNodeToDataKeys` touches only the ownership map. -/
theorem modelAddNodeToDataKeys_replicas {st st2 : ModelState} {n : String}
    {ks : List String} (h : modelAddNodeToDataKeys st n ks = .ok st2) :
    st2.replicas = st.replicas := by
  unfold modelAddNodeToDataKeys at h
  simp only [Except.ok.injEq] at h; subst h; rfl

/-- A successful `migrateIn` run rewrites only ownership accounting: the
replica map survives unchanged. -/
theorem migrateIn_model_replicas {hasM : Bool} {enc : String → Int} {st : ModelState}
    {v : Int} {nodeID a b : String} {d : List String} {st2 : ModelState}
    (h : migrateIn modelOps hasM enc st v nodeID = .ok (a, b, d, st2)) :
    st2.replicas = st.replicas := by
  simp only [migrateIn, modelOps_node, modelOps_floor, modelOps_ceiling, modelOps_dataKeys,
    modelOps_deleteNodeToDataKeys, modelOps_addNodeToDataKeys] at h
  repeat' split at h
  all_goals cases h
  all_goals try rfl
  all_goals exact Eq.trans (modelAddNodeToDataKeys_replicas (by assumption)) (modelDeleteNodeToDataKeys_replicas (by assumption))

/-- The `AddNode` replica loop preserves the replica map. -/
theorem addNodeLoop_model_replicas (hasM : Bool) (enc : String → Int) (nodeID : String) :
    ∀ (count i : Nat) (st st2 : ModelState),
      addNodeLoop modelOps hasM enc nodeID count i st = .ok st2 →
      st2.replicas = st.replicas := by
  intro count
  induction count with
  | zero =>
    intro i st st2 h
    simp only [addNodeLoop, Except.ok.injEq] at h
    rw [← h]
  | succ k ih =>
    intro i st st2 h
    simp only [addNodeLoop, modelOps_add] at h
    cases hadd : modelAdd st (enc (getRawNodeKey nodeID i)) (getRawNodeKey nodeID i) with
    | error e => simp only [hadd] at h; cases h
    | ok st1 =>
      simp only [hadd] at h
      cases hmig : migrateIn modelOps hasM enc st1 (enc (getRawNodeKey nodeID i)) nodeID with
      | error e => simp only [hmig] at h; cases h
      | ok r =>
        obtain ⟨a, b, d, stB⟩ := r
        simp only [hmig] at h
        rw [ih _ _ _ h, migrateIn_model_replicas hmig, modelAdd_replicas hadd]

/-- C8: a successful `AddNode(nodeID, weight)` persists exactly
`clamp(weight, 1, 10) × scale` as the node's replica count (the same
count that bounds the virtual-replica insertion loop), and
`getValidWeight` is exactly that clamp. -/
theorem addNode_persists_clamped_replica_count (hasM : Bool) (enc : String → Int)
    (scale : Nat) (st st2 : ModelState) (nodeID : String) (weight : Int)
    (h : addNode modelOps hasM enc scale st nodeID weight = .ok st2) :
    st2.replicas.find? (fun p => decide (p.1 = nodeID))
      = some (nodeID, (max 1 (min weight 10)).toNat * scale)
    ∧ getValidWeight weight = max 1 (min weight 10) := by
  have hclamp : getValidWeight weight = max 1 (min weight 10) := by
    unfold getValidWeight; split_ifs <;> omega
  refine ⟨?_, hclamp⟩
  simp only [addNode, modelOps_nodes, modelNodes, modelOps_addNodeToReplica,
    modelAddNodeToReplica] at h
  split at h
  · cases h
  · rw [addNodeLoop_model_replicas _ _ _ _ _ _ _ h, hclamp]
    simp [List.find?_cons_of_pos]

/-- Witness for `addNode_persists_clamped_replica_count`: `AddNode("A", 0)`
over the empty store with scale 1 persists `clamp(0,1,10) × 1 = 1`. -/
theorem addNode_persists_clamped_replica_count_w :
    (⟨[(7, ["%!d(string=A)_0"])], [("A", 1)], []⟩ : ModelState).replicas.find?
        (fun p => decide (p.1 = "A")) = some ("A", (max 1 (min (0 : Int) 10)).toNat * 1)
    ∧ getValidWeight 0 = max 1 (min (0 : Int) 10) :=
  addNode_persists_clamped_replica_count false (fun _ => 7) 1 ⟨[], [], []⟩ _ "A" 0 rfl

/-! ### Helper lemmas: termination of the clockwise walk -/

theorem minList_mem (x : Int) (xs : List Int) : minList x xs ∈ x :: xs := by
  induction xs generalizing x with
  | nil => simp [minList]
  | cons y ys ih =>
    have h := ih (min x y)
    simp only [minList, List.foldl_cons] at *
    rcases List.mem_cons.mp h with h1 | h1
    · rw [h1]
      rcases min_choice x y with hc | hc <;> rw [hc] <;> simp
    · simp [h1]

/-- On a nonempty ring, the model ceiling answers with a score that is on
the ring. -/
theorem modelCeiling_ok_mem (st : ModelState) (q : Int) (hne : scoresOf st ≠ []) :
    ∃ v, modelCeiling st q = .ok v ∧ v ∈ scoresOf st := by
  rcases hf : (scoresOf st).filter (fun x => decide (q ≤ x)) with _ | ⟨x, xs⟩
  · rcases hs : scoresOf st with _ | ⟨y, ys⟩
    · exact absurd hs hne
    · refine ⟨minList y ys, ?_, ?_⟩
      · unfold modelCeiling; rw [hf, hs]
      · exact minList_mem y ys
  · refine ⟨minList x xs, ?_, ?_⟩
    · unfold modelCeiling; rw [hf]
    · have hm : minList x xs ∈ (scoresOf st).filter (fun x => decide (q ≤ x)) := by
        rw [hf]; exact minList_mem x xs
      exact List.mem_of_mem_filter hm

/-- A score on the ring resolves to its bucket. -/
theorem modelNode_of_mem (st : ModelState) (v : Int) (hv : v ∈ scoresOf st) :
    ∃ b, b ∈ st.buckets ∧ modelNode st v = .ok b.2 := by
  obtain ⟨b, hb, hb1⟩ := List.mem_map.mp hv
  have hsome : (st.buckets.find? (fun c => decide (c.1 = v))).isSome := by
    rw [List.find?_isSome]
    exact ⟨b, hb, by simp [hb1]⟩
  obtain ⟨c, hc⟩ := Option.isSome_iff_exists.mp hsome
  refine ⟨c, List.mem_of_find?_eq_some hc, ?_⟩
  unfold modelNode; rw [hc]

theorem length_filter_le_of_imp {α : Type} (p q : α → Bool)
    (himp : ∀ a, p a = true → q a = true) :
    ∀ xs : List α, (xs.filter p).length ≤ (xs.filter q).length := by
  intro xs
  induction xs with
  | nil => simp
  | cons x xs ih =>
    simp only [List.filter_cons]
    by_cases hp : p x = true
    · rw [if_pos hp, if_pos (himp x hp)]
      simpa using ih
    · rw [if_neg hp]
      by_cases hq : q x = true
      · rw [if_pos hq]
        simp only [List.length_cons]
        omega
      · rw [if_neg hq]; exact ih

/-- Recording an unvisited on-ring score strictly shrinks the unvisited
part of the ring. -/
theorem length_filter_out_cons_lt (xs : List Int) (a : Int) (r : List Int)
    (hmem : a ∈ xs) (hnot : a ∉ r) :
    (xs.filter (fun x => decide (x ∉ a :: r))).length
      < (xs.filter (fun x => decide (x ∉ r))).length := by
  induction xs with
  | nil => cases hmem
  | cons x xs ih =>
    simp only [List.filter_cons]
    by_cases hx : x = a
    · subst hx
      rw [if_neg (by simp), if_pos (by simp [hnot])]
      have hle := length_filter_le_of_imp (fun y => decide (y ∉ x :: r))
        (fun y => decide (y ∉ r)) (fun y hy => by
          simp only [decide_eq_true_eq, List.mem_cons] at hy ⊢
          exact fun hc => hy (Or.inr hc)) xs
      simp only [List.length_cons]
      omega
    · have hxa : (decide (x ∉ a :: r)) = (decide (x ∉ r)) := by
        simp [List.mem_cons, hx]
      have hmem2 : a ∈ xs := by
        rcases List.mem_cons.mp hmem with h | h
        · exact absurd h.symm hx
        · exact h
      rw [hxa]
      by_cases hxr : (decide (x ∉ r)) = true
      · rw [if_pos hxr, if_pos hxr]
        simp only [List.length_cons]
        exact Nat.succ_lt_succ (ih hmem2)
      · rw [if_neg hxr, if_neg hxr]
        exact ih hmem2

/-- One step of the fuelled walk: either it resolves within the next two
layers of fuel, or it reduces to the recursive call on an on-ring score
not yet visited and different from the current one. -/
theorem gvnnStep (st : ModelState) (hwf : ∀ b ∈ st.buckets, b.2 ≠ [])
    (nodeID : String) (score : Int) (ranged : List Int) (f : Nat) (hf : 1 ≤ f)
    (hne : scoresOf st ≠ []) :
    (∃ s, getvaildNextNodeF modelOps st (f + 1) score nodeID ranged = some (.ok s))
    ∨ (∃ v, v ∈ scoresOf st ∧ v ∉ ranged ∧ v ≠ score ∧
        getvaildNextNodeF modelOps st (f + 1) score nodeID ranged
          = getvaildNextNodeF modelOps st f v nodeID (score :: ranged)) := by
  obtain ⟨v, hceq, hvmem⟩ := modelCeiling_ok_mem st (incrScore score) hne
  by_cases hv1 : v = -1
  · exact Or.inl ⟨"", by simp [getvaildNextNodeF, modelOps_ceiling, hceq, hv1]⟩
  · by_cases hv2 : v ∈ ranged
    · exact Or.inl ⟨"", by simp [getvaildNextNodeF, modelOps_ceiling, hceq, hv1, hv2]⟩
    · obtain ⟨b, hbmem, hnodeeq⟩ := modelNode_of_mem st v hvmem
      rcases hb2 : b.2 with _ | ⟨n0, rest⟩
      · exact absurd hb2 (hwf b hbmem)
      · by_cases hid : getNodeID n0 ≠ nodeID
        · exact Or.inl ⟨getNodeID n0, by
            simp [getvaildNextNodeF, modelOps_ceiling, modelOps_node, hceq, hv1, hv2,
              hnodeeq, hb2, hid]⟩
        · have hid2 : getNodeID n0 = nodeID := not_not.mp hid
          rcases rest with _ | ⟨n1, rest2⟩
          · by_cases hvs : v = score
            · subst hvs
              obtain ⟨f2, rfl⟩ : ∃ f2, f = f2 + 1 := ⟨f - 1, by omega⟩
              exact Or.inl ⟨"", by
                simp [getvaildNextNodeF, modelOps_ceiling, modelOps_node, hceq, hv1, hv2,
                  hnodeeq, hb2, hid2]⟩
            · refine Or.inr ⟨v, hvmem, hv2, hvs, ?_⟩
              simp [getvaildNextNodeF, modelOps_ceiling, modelOps_node, hceq, hv1, hv2,
                hnodeeq, hb2, hid2]
          · exact Or.inl ⟨getNodeID n1, by
              simp [getvaildNextNodeF, modelOps_ceiling, modelOps_node, hceq, hv1, hv2,
                hnodeeq, hb2, hid2]⟩

/-- The walk resolves once the fuel covers the unvisited part of the
ring. -/
theorem gvnnAux (st : ModelState) (hwf : ∀ b ∈ st.buckets, b.2 ≠ []) (nodeID : String) :
    ∀ (n : Nat) (score : Int) (ranged : List Int) (fuel : Nat),
      score ∈ scoresOf st → score ∉ ranged →
      ((scoresOf st).filter (fun x => decide (x ∉ ranged))).length ≤ n →
      n + 2 ≤ fuel →
      ∃ s, getvaildNextNodeF modelOps st fuel score nodeID ranged = some (.ok s) := by
  intro n
  induction n with
  | zero =>
    intro score ranged fuel hs hr hlen _
    exfalso
    have hm : score ∈ (scoresOf st).filter (fun x => decide (x ∉ ranged)) :=
      List.mem_filter.mpr ⟨hs, by simp [hr]⟩
    have := List.length_pos.mpr (List.ne_nil_of_mem hm)
    omega
  | succ k ih =>
    intro score ranged fuel hs hr hlen hfuel
    obtain ⟨f, rfl⟩ : ∃ f, fuel = f + 1 := ⟨fuel - 1, by omega⟩
    have hne : scoresOf st ≠ [] := List.ne_nil_of_mem hs
    rcases gvnnStep st hwf nodeID score ranged f (by omega) hne with
      ⟨s, hsome⟩ | ⟨v, hvmem, hvr, hvs, heq⟩
    · exact ⟨s, hsome⟩
    · rw [heq]
      refine ih v (score :: ranged) f hvmem ?_ ?_ (by omega)
      · simp [List.mem_cons, hvr, hvs]
      · have hlt := length_filter_out_cons_lt (scoresOf st) score ranged hs hr
        omega

/-- C9: `getvaildNextNode` terminates on every finite well-formed ring
state (every bucket payload nonempty): with fuel `buckets.length + 3`
the fuelled walk always resolves — to a successful value, which by the
function's definition is the parsed head of the first clockwise bucket
whose head differs from the victim (or that bucket's second entry when
its head is the victim), or `""` on a revisited score or an empty
ring. -/
theorem getvaildNextNode_terminates (st : ModelState)
    (hwf : ∀ b ∈ st.buckets, b.2 ≠ []) (score : Int) (nodeID : String)
    (ranged : List Int) (fuel : Nat) (hfuel : st.buckets.length + 3 ≤ fuel) :
    ∃ s, getvaildNextNodeF modelOps st fuel score nodeID ranged = some (.ok s) := by
  obtain ⟨f, rfl⟩ : ∃ f, fuel = f + 1 := ⟨fuel - 1, by omega⟩
  rcases hs : scoresOf st with _ | ⟨y, ys⟩
  · refine ⟨"", ?_⟩
    have hceq : modelCeiling st (incrScore score) = .ok (-1) := by
      unfold modelCeiling; rw [hs]; rfl
    simp [getvaildNextNodeF, modelOps_ceiling, hceq]
  · have hne : scoresOf st ≠ [] := by rw [hs]; simp
    have hlenmap : (scoresOf st).length = st.buckets.length := by
      simp [scoresOf]
    rcases gvnnStep st hwf nodeID score ranged f (by omega) hne with
      ⟨s, hsome⟩ | ⟨v, hvmem, hvr, hvs, heq⟩
    · exact ⟨s, hsome⟩
    · rw [heq]
      refine gvnnAux st hwf nodeID
        (((scoresOf st).filter (fun x => decide (x ∉ score :: ranged))).length)
        v (score :: ranged) f hvmem ?_ le_rfl ?_
      · simp [List.mem_cons, hvr, hvs]
      · have h1 := List.length_filter_le (fun x => decide (x ∉ score :: ranged)) (scoresOf st)
        omega

/-- Witness for `getvaildNextNode_terminates`: a one-bucket ring headed
by `B_0`, walked for victim `A` from score 0 with fuel 4 (the walk
returns `B`). -/
theorem getvaildNextNode_terminates_w :
    ∃ s, getvaildNextNodeF modelOps ⟨[(5, ["B_0"])], [], []⟩ 4 0 "A" [] = some (.ok s) :=
  getvaildNextNode_terminates ⟨[(5, ["B_0"])], [], []⟩ (by decide) 0 "A" [] 4 (by decide)

end CH
